import Mathlib

/-!
Verification of the Flo-Fi transaction-classification and aggregation engine.

The definitions below are a shallow embedding of the engine functions of the
dashboard component (helpers `monthKey`, `inCat`, `payoffCalc`, the constant
tables `SMOKING_DENYLIST` and `CARD_MAP`, and the reducers `monthly`, `byCard`,
`smoking`, `spikes`, `dayPattern`).  Numbers are embedded as rationals
(exact arithmetic in place of IEEE doubles), dates as an optional record of
the calendar components read by the code (an invalid date is `none`), and the
string-keyed accumulator objects as key lists plus per-key aggregations,
which is observationally the object they build: a key holds the sum (or
count) of the contributions inserted under it, and the output enumerates the
keys.  `Object.entries(map).sort()` sorts the stringified pairs; since every
pair stringifies to `key ++ "," ++ suffix` and distinct keys of the shapes
produced here are never related in a way that lets the suffix decide the
comparison, this equals sorting the entries by key in code-unit
(lexicographic) order, which is how it is embedded.
-/

namespace FloFi

/-- ASCII model of the JavaScript `String.prototype.toLowerCase`
(the merchants, categories and keywords involved are ASCII). -/
def strLower (s : String) : String :=
  ⟨s.data.map Char.toLower⟩

/-- Check that the first list occurs at the head of the second. -/
def listHasPrefixB : List Char → List Char → Bool
  | [], _ => true
  | _ :: _, [] => false
  | p :: ps, c :: cs => p == c && listHasPrefixB ps cs

/-- Check that `p` occurs contiguously inside the second list. -/
def listIncl (p : List Char) : List Char → Bool
  | [] => p.isEmpty
  | c :: cs => listHasPrefixB p (c :: cs) || listIncl p cs

/-- Model of the JavaScript `s.includes(pat)`. -/
def jsIncludes (s pat : String) : Bool :=
  listIncl pat.data s.data

/-- Model of `Math.round`: round half toward positive infinity. -/
def jsRound (q : ℚ) : ℤ :=
  ⌊q + 1/2⌋

/-- Model of `Math.round(q*100)/100`, the 2-decimal rounding used throughout. -/
def round2 (q : ℚ) : ℚ :=
  (jsRound (q * 100) : ℚ) / 100

/-- Model of `String(n).padStart(2, "0")` for the month number. -/
def pad2 (s : String) : String :=
  if s.length ≥ 2 then s else if s.length = 1 then "0" ++ s else "00" ++ s

/-- The calendar components of a valid `Date` that the engine reads:
`getFullYear`, `getMonth` (0-based) and `getDate` (day of month). -/
structure DateRec where
  year : ℤ
  monthIndex : ℕ
  day : ℕ
deriving DecidableEq, Repr

/-- A transaction record (`Row` of `types.ts`).  A `Date` whose
`getTime()` is `NaN` (an invalid date) is embedded as `none`. -/
structure Row where
  Date : Option DateRec
  Merchant : String
  Category : String
  Amount : ℚ
  Account : String
deriving DecidableEq, Repr

/-- Source `monthKey`: year, dash, zero-padded 1-based month. -/
def monthKey (d : DateRec) : String :=
  toString d.year ++ "-" ++ pad2 (toString (d.monthIndex + 1))

/-- The month key the code computes on a possibly-invalid date: an invalid
`Date` has `NaN` components, `String(NaN).padStart(2,"0")` is `"NaN"`, so
`monthKey` returns `"NaN-NaN"` on it. -/
def monthKeyOpt : Option DateRec → String
  | none => "NaN-NaN"
  | some d => monthKey d

/-- Model of `r.Date.getDate()`: the day for a valid date, and the `NaN`
produced by an invalid date is `none` (distinct from every numeric key). -/
def jsGetDate : Option DateRec → Option ℕ
  | none => none
  | some d => some d.day

/-- Gas stations of the smoking denylist (source `SMOKING_DENYLIST`). -/
def SMOKING_DENYLIST : List String :=
  ["chevron", "shell"]

/-- Source `inCat(_category, row, merchantList)`: its first argument is
unused, the test reads only `row.Merchant`. -/
def inCat ( _category : String) (row : Row) (merchantList : List String) : Bool :=
  merchantList.any (fun m => jsIncludes (strLower row.Merchant) (strLower m))

/-- Source `payoffCalc` loop body, with `fuel = 240 - months` so that the
guard `months < 240` is exactly `fuel ≠ 0`; structurally recursive on fuel. -/
def payoffLoop (r pmt : ℚ) : ℕ → ℚ → ℕ → ℚ → ℕ × ℚ
  | 0, _, months, interest => (months, interest)
  | fuel + 1, bal, months, interest =>
    if 0 < bal then
      payoffLoop r pmt fuel (bal + bal * r - min (bal + bal * r) pmt)
        (months + 1) (interest + bal * r)
    else (months, interest)

/-- The hard iteration cap of `payoffCalc` (`months < 240`). -/
def payoffCap : ℕ := 240

/-- Result record of `payoffCalc`. -/
structure Payoff where
  months : ℕ
  interest : ℚ
deriving DecidableEq, Repr

/-- Source `payoffCalc(balance, apr, minPay, extra)`: monthly rate `apr/12`,
iterate `interest += bal*r; pay = min(bal+int, minPay+extra);
bal = bal + int - pay; months++` while `bal > 0 && months < 240`,
then round the accumulated interest to 2 decimals. -/
def payoffCalc (balance apr minPay extra : ℚ) : Payoff :=
  let p := payoffLoop (apr / 12) (minPay + extra) payoffCap balance 0 0
  ⟨p.1, round2 p.2⟩

/-- Source `CARD_MAP`, in declared key order. -/
def CARD_MAP : List (String × List String) :=
  [("Housing & Insurance", ["geico", "extra space storage"]),
   ("Connectivity & Utilities", ["starlink", "verizon", "at&t", "att"]),
   ("Digital & Lifestyle",
    ["prime video", "amazon digital", "dreamhost", "apple", "itunes", "icloud",
     "namecheap", "spotify", "netflix", "audible", "google one", "wikipedia",
     "new york times", "xbox", "niantic"]),
   ("AI & Tools", ["cursor", "claude", "openai", "chatgpt", "anthropic"])]

/-- The bucket the `byCard` loop assigns a record to: the first entry of
`CARD_MAP` for which `inCat(r.Category, r, merchants) ||
inCat(r.Merchant, r, merchants)` holds, else `"Other"`. -/
def classifyCard (r : Row) : String :=
  match CARD_MAP.find? (fun e => inCat r.Category r e.2 || inCat r.Merchant r e.2) with
  | some e => e.1
  | none => "Other"

/-- The keys of the `sums` accumulator of `byCard`, in insertion order:
the declared `CARD_MAP` buckets and then `"Other"`. -/
def BUCKETS : List String :=
  CARD_MAP.map (fun e => e.1) ++ ["Other"]

/-- The per-record contribution of `byCard`:
`r.Amount < 0 ? Math.abs(r.Amount) : 0`. -/
def spendAmount (r : Row) : ℚ :=
  if r.Amount < 0 then |r.Amount| else 0

/-- Final value of `sums[b]` in `byCard`: the sum of the contributions of the
records the loop classified into bucket `b`. -/
def exactTotal (b : String) (rows : List Row) : ℚ :=
  ((rows.filter (fun r => classifyCard r == b)).map spendAmount).sum

/-- One entry of the `byCard` output. -/
structure CardEntry where
  name : String
  value : ℚ
deriving DecidableEq, Repr

/-- Source `byCard`: one entry per accumulator key in insertion order, value
rounded to 2 decimals. -/
def byCard (rows : List Row) : List CardEntry :=
  BUCKETS.map (fun b => ⟨b, round2 (exactTotal b rows)⟩)

/-- The records `monthly` keeps: the loop skips a record whose date is
missing or whose `getTime()` is `NaN`. -/
def validRows (rows : List Row) : List Row :=
  rows.filter (fun r => r.Date.isSome)

/-- The month key of a record, as the reducers compute it. -/
def rowKey (r : Row) : String :=
  monthKeyOpt r.Date

/-- The keys of the `map` accumulator of `monthly` (one per distinct month
key among the kept records). -/
def monthlyKeys (rows : List Row) : List String :=
  ((validRows rows).map rowKey).dedup

/-- Final `income` of month `k` in `monthly`: the sum of the positive
amounts of the kept records of that month. -/
def incomeAt (rows : List Row) (k : String) : ℚ :=
  (((validRows rows).filter
      (fun r => rowKey r == k && decide (0 < r.Amount))).map (fun r => r.Amount)).sum

/-- Final `spend` of month `k` in `monthly`: the sum of `Math.abs(Amount)`
over the kept records of that month with non-positive amount. -/
def spendAt (rows : List Row) (k : String) : ℚ :=
  (((validRows rows).filter
      (fun r => rowKey r == k && !decide (0 < r.Amount))).map (fun r => |r.Amount|)).sum

/-- One entry of the `monthly` output. -/
structure MonthlyEntry where
  Month : String
  income : ℚ
  spend : ℚ
deriving DecidableEq, Repr

/-- Source `monthly`: the accumulator entries sorted ascending by month key. -/
def monthly (rows : List Row) : List MonthlyEntry :=
  (List.insertionSort (· ≤ ·) (monthlyKeys rows)).map
    (fun k => ⟨k, incomeAt rows k, spendAt rows k⟩)

/-- The `filtered` list of the `smoking` reducer: category contains "gas"
(case-insensitively), amount at or below -100, merchant not containing a
denylisted substring. -/
def smokingFiltered (rows : List Row) : List Row :=
  rows.filter (fun r =>
    jsIncludes (strLower r.Category) "gas" && decide (r.Amount ≤ -100) &&
      !(SMOKING_DENYLIST.any (fun m => jsIncludes (strLower r.Merchant) m)))

/-- The keys of the `perMonth` accumulator of `smoking`. -/
def smokingKeys (rows : List Row) : List String :=
  ((smokingFiltered rows).map rowKey).dedup

/-- Final `perMonth[k]` of `smoking`, rounded to 2 decimals as the series
construction does. -/
def smokingMonthTotal (rows : List Row) (k : String) : ℚ :=
  round2 ((((smokingFiltered rows).filter (fun r => rowKey r == k)).map
    (fun r => |r.Amount|)).sum)

/-- Output record of the `smoking` reducer. -/
structure SmokingOut where
  series : List (String × ℚ)
  total : ℚ
  count : ℕ
deriving DecidableEq, Repr

/-- Source `smoking`: sorted monthly series of rounded totals, grand total
re-rounded from the sum of the rounded monthly totals, and the count of
surviving records. -/
def smoking (rows : List Row) : SmokingOut :=
  let series := (List.insertionSort (· ≤ ·) (smokingKeys rows)).map
    (fun k => (k, smokingMonthTotal rows k))
  ⟨series, round2 ((series.map (fun e => e.2)).sum), (smokingFiltered rows).length⟩

/-- The `skip` exclusion set of `spikes` and `dayPattern`. -/
def skipList : List String :=
  ["transfer", "loan repayment", "credit card payment"]

/-- The `filtered` list of `spikes`: amount at or below -1000 and lowered
category not in the exclusion set. -/
def spikeFiltered (rows : List Row) : List Row :=
  rows.filter (fun r =>
    decide (r.Amount ≤ -1000) && !(skipList.contains (strLower r.Category)))

/-- The keys of the `byMonth` accumulator of `spikes`. -/
def spikeKeys (rows : List Row) : List String :=
  ((spikeFiltered rows).map rowKey).dedup

/-- Source `spikes`: per month key, the count of surviving records, sorted
ascending by key. -/
def spikes (rows : List Row) : List (String × ℕ) :=
  (List.insertionSort (· ≤ ·) (spikeKeys rows)).map
    (fun k => (k, ((spikeFiltered rows).filter (fun r => rowKey r == k)).length))

/-- The `filtered` list of `dayPattern`: amount at or below -500, same
exclusion set. -/
def dpFiltered (rows : List Row) : List Row :=
  rows.filter (fun r =>
    decide (r.Amount ≤ -500) && !(skipList.contains (strLower r.Category)))

/-- Final `days[d]` of `dayPattern`: how many surviving records fall on day
`d` (an invalid date yields the `NaN` key, which is never one of 1..31). -/
def dayCount (rows : List Row) (d : ℕ) : ℕ :=
  ((dpFiltered rows).filter (fun r => jsGetDate r.Date == some d)).length

/-- One entry of the `dayPattern` output. -/
structure DayEntry where
  day : ℕ
  count : ℕ
deriving DecidableEq, Repr

/-- Source `dayPattern`: `Array.from({length:31}, (_,i)=>({day:i+1, count:days[i+1]||0}))`. -/
def dayPattern (rows : List Row) : List DayEntry :=
  (List.range 31).map (fun i => ⟨i + 1, dayCount rows (i + 1)⟩)

/-- Total spend: the sum of `|Amount|` over the records with negative
amount (the quantity the §4.2 conservation property compares against). -/
def negSpendTotal (rows : List Row) : ℚ :=
  ((rows.filter (fun r => decide (r.Amount < 0))).map (fun r => |r.Amount|)).sum

/-- Rule match as the specification words it: the category string OR the
merchant string contains, case-insensitively, some keyword of the rule. -/
def specRuleMatchesCatOrMerchant (r : Row) (keywords : List String) : Bool :=
  keywords.any (fun kw =>
    jsIncludes (strLower r.Category) (strLower kw) ||
      jsIncludes (strLower r.Merchant) (strLower kw))

/-- Classification as the specification words it: first rule of the table
whose keywords match category or merchant, else `"Other"`. -/
def specClassifyCatOrMerchant (r : Row) : String :=
  match CARD_MAP.find? (fun e => specRuleMatchesCatOrMerchant r e.2) with
  | some e => e.1
  | none => "Other"

/-- Rule match reading only the merchant string, the amended wording. -/
def specRuleMatchesMerchant (r : Row) (keywords : List String) : Bool :=
  keywords.any (fun kw => jsIncludes (strLower r.Merchant) (strLower kw))

/-- Classification under the amended wording: first rule of the table with a
keyword occurring case-insensitively in the merchant string, else `"Other"`. -/
def specClassifyMerchantOnly (r : Row) : String :=
  match CARD_MAP.find? (fun e => specRuleMatchesMerchant r e.2) with
  | some e => e.1
  | none => "Other"

/-! ## Helper lemmas -/

/-- A non-positive balance never enters the loop body. -/
theorem payoffLoop_of_nonpos (r pmt : ℚ) (fuel : ℕ) (bal : ℚ) (m : ℕ) (i : ℚ)
    (h : ¬ 0 < bal) : payoffLoop r pmt fuel bal m i = (m, i) := by
  cases fuel with
  | zero => rfl
  | succ fuel => simp [payoffLoop, h]

/-- Rounding zero gives zero. -/
theorem round2_zero : round2 0 = 0 := by
  norm_num [round2, jsRound]

/-- With a positive monthly rate and zero payment the loop keeps a positive
balance and burns all its fuel, adding the fuel to the month counter. -/
theorem payoffLoop_zero_pay (r : ℚ) (hr : 0 < r) :
    ∀ (fuel : ℕ) (bal : ℚ), 0 < bal → ∀ (m : ℕ) (i : ℚ),
      (payoffLoop r 0 fuel bal m i).1 = m + fuel := by
  intro fuel
  induction fuel with
  | zero => intro bal _ m i; rfl
  | succ fuel ih =>
    intro bal hbal m i
    have hpos : 0 < bal + bal * r := by nlinarith
    have hmin : min (bal + bal * r) 0 = 0 := min_eq_right hpos.le
    have hih : (payoffLoop r 0 fuel (bal + bal * r) (m + 1) (i + bal * r)).1
        = (m + 1) + fuel := ih (bal + bal * r) hpos (m + 1) (i + bal * r)
    simp only [payoffLoop, if_pos hbal, hmin, sub_zero]
    rw [hih]
    omega


/-! ## Claim theorems -/

/-- C7: for every aprPercent, minPayment and extraPayment, running the
amortization simulator with balance = 0 yields months = 0 and total
interest = 0. -/
theorem payoff_zero_balance (aprPercent minPay extra : ℚ) :
    payoffCalc 0 (aprPercent / 100) minPay extra = ⟨0, 0⟩ := by
  unfold payoffCalc
  rw [payoffLoop_of_nonpos _ _ _ _ _ _ (by norm_num)]
  simp [round2_zero]

/-- C10: a negative balance, outside the documented precondition, makes the
loop guard fail at once, so the simulator returns months = 0 and total
interest = 0 for every aprPercent, minPayment and extraPayment. -/
theorem payoff_negative_balance (balance aprPercent minPay extra : ℚ)
    (h : balance < 0) :
    payoffCalc balance (aprPercent / 100) minPay extra = ⟨0, 0⟩ := by
  unfold payoffCalc
  rw [payoffLoop_of_nonpos _ _ _ _ _ _ (by linarith)]
  simp [round2_zero]

/-- Witness for C10 at balance = -50, aprPercent = 20, payments 300 + 300. -/
theorem payoff_negative_balance_witness :
    (-50 : ℚ) < 0 ∧ payoffCalc (-50) (20 / 100) 300 300 = ⟨0, 0⟩ :=
  ⟨by norm_num, payoff_negative_balance (-50) 20 300 300 (by norm_num)⟩

/-- C2: with positive balance, positive aprPercent and both payments zero,
the simulator stops exactly at the hard iteration cap, and that cap lies
between 200 and 240 months. -/
theorem payoff_cap_hit (balance aprPercent : ℚ)
    (hb : 0 < balance) (ha : 0 < aprPercent) :
    (payoffCalc balance (aprPercent / 100) 0 0).months = payoffCap ∧
      200 ≤ payoffCap ∧ payoffCap ≤ 240 := by
  refine ⟨?_, by norm_num [payoffCap], by norm_num [payoffCap]⟩
  unfold payoffCalc payoffCap
  have hr : 0 < aprPercent / 100 / 12 := by positivity
  have hloop := payoffLoop_zero_pay (aprPercent / 100 / 12) hr 240 balance hb 0 0
  simpa using hloop

/-- Witness for C2 at balance = 100, aprPercent = 20. -/
theorem payoff_cap_hit_witness :
    (0 : ℚ) < 100 ∧ (0 : ℚ) < 20 ∧
      ((payoffCalc 100 (20 / 100) 0 0).months = payoffCap ∧
        200 ≤ payoffCap ∧ payoffCap ≤ 240) :=
  ⟨by norm_num, by norm_num, payoff_cap_hit 100 20 (by norm_num) (by norm_num)⟩

/-- C6: on the two gas records of the scenario, both merchants being
denylisted, the smoking reducer returns the empty series, zero total and
zero count. -/
theorem smoking_denylist_scenario :
    smoking [⟨some ⟨2024, 0, 15⟩, "Shell", "Gas", -120, ""⟩,
      ⟨some ⟨2024, 0, 20⟩, "Chevron", "Gas", -150, ""⟩] = ⟨[], 0, 0⟩ := by
  have hf : smokingFiltered [⟨some ⟨2024, 0, 15⟩, "Shell", "Gas", -120, ""⟩,
      ⟨some ⟨2024, 0, 20⟩, "Chevron", "Gas", -150, ""⟩] = [] := by decide
  simp [smoking, smokingKeys, hf, round2_zero]

/-- C1 counterexample: a record whose category is "Netflix" but whose
merchant matches no keyword.  Under the claimed category-or-merchant
matching the third rule fires, yet the code classifies it to "Other". -/
theorem classify_cat_or_merchant_cex :
    specClassifyCatOrMerchant ⟨some ⟨2024, 2, 5⟩, "zzz store", "Netflix", -10, ""⟩
        = "Digital & Lifestyle" ∧
      classifyCard ⟨some ⟨2024, 2, 5⟩, "zzz store", "Netflix", -10, ""⟩ = "Other" := by
  decide

/-- C1 amended: a rule matches exactly when the merchant string contains,
case-insensitively, some keyword of the rule; the first matching rule in
declared table order wins and unmatched records classify to "Other". -/
theorem classify_merchant_only (r : Row) : classifyCard r = specClassifyMerchantOnly r := by
  have hp : (fun e : String × List String =>
        inCat r.Category r e.2 || inCat r.Merchant r e.2)
      = fun e => specRuleMatchesMerchant r e.2 := by
    funext e
    simp [inCat, specRuleMatchesMerchant]
  simp only [classifyCard, specClassifyMerchantOnly, hp]

/-- The classification ignores the category field. -/
theorem classifyCard_setCategory (r : Row) (c : String) :
    classifyCard { r with Category := c } = classifyCard r := by
  simp [classifyCard, inCat]

/-- One step of the bucket accumulator. -/
theorem exactTotal_cons (b : String) (r : Row) (rows : List Row) :
    exactTotal b (r :: rows)
      = (if classifyCard r == b then spendAmount r else 0) + exactTotal b rows := by
  cases h : classifyCard r == b <;> simp [exactTotal, List.filter_cons, h]

/-- Rewriting every category leaves every bucket total unchanged. -/
theorem exactTotal_map_category (b : String) (g : Row → String) :
    ∀ rows : List Row,
      exactTotal b (rows.map (fun r => { r with Category := g r })) = exactTotal b rows := by
  intro rows
  induction rows with
  | nil => rfl
  | cons r rows ih =>
    have hs : spendAmount { r with Category := g r } = spendAmount r := rfl
    simp only [List.map_cons, exactTotal_cons, classifyCard_setCategory, hs, ih]

/-- C9: two records that differ only in the category field classify to the
same bucket, and rewriting the category field of every record leaves the
whole bucket output unchanged. -/
theorem category_no_influence :
    (∀ (r : Row) (c : String), classifyCard { r with Category := c } = classifyCard r) ∧
      ∀ (rows : List Row) (g : Row → String),
        byCard (rows.map (fun r => { r with Category := g r })) = byCard rows := by
  refine ⟨classifyCard_setCategory, fun rows g => ?_⟩
  unfold byCard
  simp only [exactTotal_map_category]

/-- C4 counterexample: a gas record of -150 with an invalid date survives
the smoking filter, so the recurring-cost reduction counts it and emits it
under the month key "NaN-NaN" rather than excluding it, and likewise a
-2000 record with an invalid date appears in the spike counts under
"NaN-NaN". -/
theorem smoking_invalid_date_cex :
    (smoking [⟨none, "Corner Smoke Shop", "Gas", -150, ""⟩]).count = 1 ∧
      (smoking [⟨none, "Corner Smoke Shop", "Gas", -150, ""⟩]).series.map
          (fun e => e.1) = ["NaN-NaN"] ∧
      spikes [⟨none, "Big Mart", "shopping", -2000, ""⟩] = [("NaN-NaN", 1)] ∧
      (⟨none, "Corner Smoke Shop", "Gas", -150, ""⟩ : Row).Date = none := by
  decide

/-- Filtering twice on date validity is filtering once. -/
theorem validRows_idem (rows : List Row) : validRows (validRows rows) = validRows rows := by
  simp [validRows, List.filter_filter]

/-- C4 amended, first part: the monthly income-spend reduction depends only
on the records with a valid date. -/
theorem monthly_validRows (rows : List Row) : monthly (validRows rows) = monthly rows := by
  unfold monthly monthlyKeys incomeAt spendAt
  rw [validRows_idem]

/-- Dropping the invalid-date records first does not change a filter whose
predicate only holds on valid-date records. -/
theorem filter_validRows (P : Row → Bool) (h : ∀ r, P r → r.Date.isSome)
    (rows : List Row) : (validRows rows).filter P = rows.filter P := by
  unfold validRows
  rw [List.filter_filter]
  apply List.filter_congr
  intro r _
  cases hP : P r
  · simp
  · simp [h r hP]

/-- Day counts depend only on the records with a valid date: an invalid
date contributes the key `none`, which no day 1..31 reads. -/
theorem dayCount_validRows (rows : List Row) (d : ℕ) :
    dayCount (validRows rows) d = dayCount rows d := by
  unfold dayCount dpFiltered
  rw [List.filter_filter, List.filter_filter]
  congr 1
  apply filter_validRows
  intro r hP
  have h1 : (jsGetDate r.Date == some d) = true := by
    simp only [Bool.and_eq_true] at hP
    exact hP.1
  cases hd : r.Date with
  | none => rw [hd] at h1; simp [jsGetDate] at h1
  | some dd => simp [hd]

/-- C4 amended, second part: the day-of-month histogram depends only on the
records with a valid date. -/
theorem dayPattern_validRows (rows : List Row) :
    dayPattern (validRows rows) = dayPattern rows := by
  unfold dayPattern
  simp only [dayCount_validRows]

/-- A record with an invalid date carries the month key "NaN-NaN". -/
theorem rowKey_none (r : Row) (hd : r.Date = none) : rowKey r = "NaN-NaN" := by
  simp [rowKey, hd, monthKeyOpt]

/-- An invalid-date record surviving the smoking filter is counted and its
month appears in the output series as the "NaN-NaN" entry. -/
theorem smoking_groups_invalid (rows : List Row) (r : Row)
    (hr : r ∈ smokingFiltered rows) (hd : r.Date = none) :
    0 < (smoking rows).count ∧ ∃ e ∈ (smoking rows).series, e.1 = "NaN-NaN" := by
  constructor
  · simpa [smoking] using List.length_pos_of_mem hr
  · have hkey : "NaN-NaN" ∈ smokingKeys rows := by
      unfold smokingKeys
      exact List.mem_dedup.mpr (List.mem_map.mpr ⟨r, hr, rowKey_none r hd⟩)
    have hsorted : "NaN-NaN" ∈ List.insertionSort (· ≤ ·) (smokingKeys rows) :=
      (List.mem_insertionSort _).mpr hkey
    refine ⟨("NaN-NaN", smokingMonthTotal rows "NaN-NaN"), ?_, rfl⟩
    simp only [smoking]
    exact List.mem_map.mpr ⟨"NaN-NaN", hsorted, rfl⟩

/-- An invalid-date record surviving the spike filter puts a positive
"NaN-NaN" entry into the spike output. -/
theorem spikes_groups_invalid (rows : List Row) (r : Row)
    (hr : r ∈ spikeFiltered rows) (hd : r.Date = none) :
    ∃ p ∈ spikes rows, p.1 = "NaN-NaN" ∧ 0 < p.2 := by
  have hkey : "NaN-NaN" ∈ spikeKeys rows := by
    unfold spikeKeys
    exact List.mem_dedup.mpr (List.mem_map.mpr ⟨r, hr, rowKey_none r hd⟩)
  have hsorted : "NaN-NaN" ∈ List.insertionSort (· ≤ ·) (spikeKeys rows) :=
    (List.mem_insertionSort _).mpr hkey
  refine ⟨("NaN-NaN",
      ((spikeFiltered rows).filter (fun x => rowKey x == "NaN-NaN")).length),
    ?_, rfl, ?_⟩
  · unfold spikes
    exact List.mem_map.mpr ⟨"NaN-NaN", hsorted, rfl⟩
  · exact List.length_pos_of_mem
      (List.mem_filter.mpr ⟨hr, by simp [rowKey_none r hd]⟩)

/-- C4 amended: invalid dates are skipped by the monthly reduction and
contribute to no day count of the histogram, while the recurring-cost and
spike reductions do not exclude such records: a surviving invalid-date
record is counted and grouped under the month key "NaN-NaN" in their
outputs. -/
theorem invalid_dates_amended :
    (∀ rows : List Row, monthly (validRows rows) = monthly rows) ∧
      (∀ rows : List Row, dayPattern (validRows rows) = dayPattern rows) ∧
      (∀ (rows : List Row) (r : Row), r ∈ smokingFiltered rows → r.Date = none →
        0 < (smoking rows).count ∧ ∃ e ∈ (smoking rows).series, e.1 = "NaN-NaN") ∧
      ∀ (rows : List Row) (r : Row), r ∈ spikeFiltered rows → r.Date = none →
        ∃ p ∈ spikes rows, p.1 = "NaN-NaN" ∧ 0 < p.2 :=
  ⟨monthly_validRows, dayPattern_validRows, smoking_groups_invalid, spikes_groups_invalid⟩

/-- Witness for C4 amended at one invalid-date smoking record and one
invalid-date spike record. -/
theorem invalid_dates_amended_witness :
    (0 < (smoking [⟨none, "Corner Smoke Shop", "Gas", -150, ""⟩]).count ∧
        ∃ e ∈ (smoking [⟨none, "Corner Smoke Shop", "Gas", -150, ""⟩]).series,
          e.1 = "NaN-NaN") ∧
      ∃ p ∈ spikes [⟨none, "Big Mart", "shopping", -2000, ""⟩],
        p.1 = "NaN-NaN" ∧ 0 < p.2 :=
  ⟨invalid_dates_amended.2.2.1 [⟨none, "Corner Smoke Shop", "Gas", -150, ""⟩]
      ⟨none, "Corner Smoke Shop", "Gas", -150, ""⟩ (by decide) rfl,
    invalid_dates_amended.2.2.2 [⟨none, "Big Mart", "shopping", -2000, ""⟩]
      ⟨none, "Big Mart", "shopping", -2000, ""⟩ (by decide) rfl⟩

/-- C8: the month keys of the monthly output are pairwise strictly
increasing in lexicographic string order; in particular each key occurs at
most once and the entries are sorted ascending. -/
theorem monthly_months_strictly_increasing (rows : List Row) :
    List.Pairwise (· < ·) ((monthly rows).map (fun e => e.Month)) := by
  have hmap : (monthly rows).map (fun e => e.Month)
      = List.insertionSort (· ≤ ·) (monthlyKeys rows) := by
    simp [monthly, List.map_map, Function.comp_def]
  rw [hmap]
  have hsorted : List.Sorted (· ≤ ·) (List.insertionSort (· ≤ ·) (monthlyKeys rows)) :=
    List.sorted_insertionSort _ _
  have hnodup : (List.insertionSort (· ≤ ·) (monthlyKeys rows)).Nodup :=
    (List.perm_insertionSort (· ≤ ·) (monthlyKeys rows)).nodup_iff.mpr
      (List.nodup_dedup _)
  exact hsorted.lt_of_le hnodup

/-- C5: the day histogram always has exactly 31 entries, for days 1 to 31
in ascending order, every count is non-negative, and a count is zero
exactly when no surviving record falls on that day. -/
theorem dayPattern_dense (rows : List Row) :
    (dayPattern rows).length = 31 ∧
      (dayPattern rows).map (fun e => e.day) = (List.range 31).map (fun i => i + 1) ∧
      ∀ e ∈ dayPattern rows,
        0 ≤ e.count ∧
          (e.count = 0 ↔ ¬ ∃ r ∈ dpFiltered rows, jsGetDate r.Date = some e.day) := by
  refine ⟨by simp [dayPattern], by simp [dayPattern, List.map_map, Function.comp], ?_⟩
  intro e he
  simp only [dayPattern, List.mem_map, List.mem_range] at he
  obtain ⟨i, hi, rfl⟩ := he
  refine ⟨Nat.zero_le _, ?_⟩
  unfold dayCount
  rw [List.length_eq_zero, List.filter_eq_nil_iff]
  simp

/-- Witness for C5 at the empty record list and the day-31 entry. -/
theorem dayPattern_dense_witness :
    (dayPattern []).length = 31 ∧ 0 ≤ (DayEntry.mk 31 0).count :=
  ⟨(dayPattern_dense []).1,
    ((dayPattern_dense []).2.2 ⟨31, 0⟩ (by decide)).1⟩

/-- Sum of a pointwise sum splits. -/
theorem sum_map_add (f g : String → ℚ) :
    ∀ l : List String,
      (l.map (fun b => f b + g b)).sum = (l.map f).sum + (l.map g).sum := by
  intro l
  induction l with
  | nil => simp
  | cons a l ih => simp [ih]; ring

/-- Summing an indicator over a duplicate-free list containing its point
yields the value. -/
theorem sum_indicator (v : ℚ) (x : String) :
    ∀ l : List String, l.Nodup → x ∈ l →
      (l.map (fun b => if x == b then v else 0)).sum = v := by
  intro l
  induction l with
  | nil => intro _ h; cases h
  | cons a l ih =>
    intro hnd hmem
    rcases List.mem_cons.mp hmem with rfl | hx
    · have hx_not : x ∉ l := (List.nodup_cons.mp hnd).1
      have htail : (l.map (fun b => if x = b then v else 0)).sum = 0 := by
        apply List.sum_eq_zero
        intro y hy
        obtain ⟨b, hb, rfl⟩ := List.mem_map.mp hy
        have hne : x ≠ b := fun h => hx_not (h ▸ hb)
        simp [hne]
      simp [htail]
    · have hne : x ≠ a := fun h => (List.nodup_cons.mp hnd).1 (h ▸ hx)
      have hrec := ih (List.nodup_cons.mp hnd).2 hx
      simp only [beq_iff_eq] at hrec
      simp [hne, hrec]

/-- The five accumulator keys are distinct. -/
theorem buckets_nodup : BUCKETS.Nodup := by decide

/-- Every record classifies to one of the five accumulator keys. -/
theorem classify_mem (r : Row) : classifyCard r ∈ BUCKETS := by
  unfold classifyCard BUCKETS
  cases hf : CARD_MAP.find? (fun e => inCat r.Category r e.2 || inCat r.Merchant r e.2) with
  | none => simp
  | some e =>
    have he : e ∈ CARD_MAP := List.mem_of_find?_eq_some hf
    exact List.mem_append_left _ (List.mem_map.mpr ⟨e, he, rfl⟩)

/-- One step of the total-spend accumulator. -/
theorem negSpendTotal_cons (r : Row) (rows : List Row) :
    negSpendTotal (r :: rows) = spendAmount r + negSpendTotal rows := by
  by_cases h : r.Amount < 0 <;>
    simp [negSpendTotal, spendAmount, List.filter_cons, h]

/-- Exact conservation: the unrounded bucket totals sum to the total spend. -/
theorem sum_exactTotal :
    ∀ rows : List Row,
      (BUCKETS.map (fun b => exactTotal b rows)).sum = negSpendTotal rows := by
  intro rows
  induction rows with
  | nil => simp [exactTotal, negSpendTotal]
  | cons r rows ih =>
    simp only [exactTotal_cons]
    rw [sum_map_add (fun b => if classifyCard r == b then spendAmount r else 0)
      (fun b => exactTotal b rows) BUCKETS]
    rw [ih, sum_indicator (spendAmount r) (classifyCard r) BUCKETS buckets_nodup
      (classify_mem r), negSpendTotal_cons]

/-- Rounding to cents moves a value by at most a cent. -/
theorem round2_sub_le (q : ℚ) : |round2 q - q| ≤ 1 / 100 := by
  unfold round2 jsRound
  have h1 : (⌊q * 100 + 1/2⌋ : ℚ) ≤ q * 100 + 1/2 := Int.floor_le _
  have h2 : q * 100 + 1/2 - 1 < (⌊q * 100 + 1/2⌋ : ℚ) := Int.sub_one_lt_floor _
  rw [abs_le]
  constructor <;> linarith

/-- Rounding each summand moves a sum by at most a cent per summand. -/
theorem sum_round2_err (t : String → ℚ) :
    ∀ l : List String,
      |(l.map (fun b => round2 (t b))).sum - (l.map (fun b => t b)).sum|
        ≤ (l.length : ℚ) / 100 := by
  intro l
  induction l with
  | nil => simp
  | cons a l ih =>
    simp only [List.map_cons, List.sum_cons, List.length_cons]
    have h1 := round2_sub_le (t a)
    calc |round2 (t a) + (l.map (fun b => round2 (t b))).sum
          - (t a + (l.map (fun b => t b)).sum)|
        = |(round2 (t a) - t a)
            + ((l.map (fun b => round2 (t b))).sum - (l.map (fun b => t b)).sum)| := by
          congr 1
          ring
      _ ≤ |round2 (t a) - t a|
            + |(l.map (fun b => round2 (t b))).sum - (l.map (fun b => t b)).sum| :=
          abs_add _ _
      _ ≤ 1 / 100 + (l.length : ℚ) / 100 := add_le_add h1 ih
      _ = ((l.length + 1 : ℕ) : ℚ) / 100 := by push_cast; ring

/-- C3: the sum of the rounded bucket totals, "Other" included, equals the
total of the absolute negative amounts, to within a cent per bucket. -/
theorem bucket_totals_conserved (rows : List Row) :
    |((byCard rows).map (fun e => e.value)).sum - negSpendTotal rows|
      ≤ (BUCKETS.length : ℚ) / 100 := by
  have hmap : (byCard rows).map (fun e => e.value)
      = BUCKETS.map (fun b => round2 (exactTotal b rows)) := by
    simp [byCard, List.map_map, Function.comp_def]
  rw [hmap, ← sum_exactTotal rows]
  exact sum_round2_err (fun b => exactTotal b rows) BUCKETS

end FloFi
